import Mathlib

/-!
# OpenPiton SD card drivers: transfer engine, GPT probe and scatter-gather walk

A shallow embedding of `drivers/block/piton_sd.c` and
`drivers/mmc/host/piton_mmc.c`.

Conventions of the embedding.

* Memory is a total map from byte offsets to byte values.  A cell is read
  modulo 256 and every store writes a value below 256.  Device memory is
  indexed by the byte offset from the mapped base (`piton_sd_base_addr`,
  `host->sdmem`); a host buffer is indexed by the byte offset from the pointer
  handed to the driver (`dst`, `sg_virt(sg)`).
* The CPU is little-endian (the GPT fields are read straight out of the
  buffer, and `ioread64`/`iowrite64` are little-endian accessors).
* Machine integers are natural numbers with an explicit `% 2^w` wherever the
  C expression can wrap or a conversion narrows.
-/

namespace PitonSD

/-- Byte-addressed memory. -/
abbrev Mem := Nat → Nat

/-- Little-endian 64-bit load from `m` at byte offset `a`. -/
def load64 (m : Mem) (a : Nat) : Nat :=
  m a % 256 + (m (a + 1) % 256) * 256 ^ 1 + (m (a + 2) % 256) * 256 ^ 2
    + (m (a + 3) % 256) * 256 ^ 3 + (m (a + 4) % 256) * 256 ^ 4
    + (m (a + 5) % 256) * 256 ^ 5 + (m (a + 6) % 256) * 256 ^ 6
    + (m (a + 7) % 256) * 256 ^ 7

/-- Little-endian 32-bit load from `m` at byte offset `a`. -/
def load32 (m : Mem) (a : Nat) : Nat :=
  m a % 256 + (m (a + 1) % 256) * 256 ^ 1 + (m (a + 2) % 256) * 256 ^ 2
    + (m (a + 3) % 256) * 256 ^ 3

/-- Little-endian 64-bit store of `v` into `m` at byte offset `a`. -/
def store64 (m : Mem) (a v : Nat) : Mem :=
  fun x => if a ≤ x ∧ x < a + 8 then (v / 256 ^ (x - a)) % 256 else m x

/-- Modelled from the spec: the kernel accessor `ioread64(addr)`
(`asm-generic/io.h`, not under `src/`), which "copies one unit from the mapped
device address": one little-endian 64-bit load from device memory. -/
def ioread64 (dev : Mem) (addr : Nat) : Nat := load64 dev addr

/-- Modelled from the spec: the kernel accessor `iowrite64(v, addr)`
(`asm-generic/io.h`, not under `src/`), which "copies one unit from the host
buffer into the mapped device address": one little-endian 64-bit store to
device memory. -/
def iowrite64 (dev : Mem) (v addr : Nat) : Mem := store64 dev addr v

def PITON_SD_BLOCK_SIZE : Nat := 512
def PITON_SD_BASE_ADDR : Nat := 0xf000000000
def PITON_SD_READ : Nat := 0
def PITON_SD_WRITE : Nat := 1

/-- One recorded unit access of `piton_sd_rw`: the direction, the device byte
offset of `src` and the host byte offset of `p` at the access. -/
structure sd_access where
  is_write : Bool
  dev_off : Nat
  host_off : Nat
deriving DecidableEq, Repr

/-- What `piton_sd_rw` works on: the host buffer behind `dst`, the device
memory behind `piton_sd_base_addr`, and the (ghost) list of unit accesses
performed so far, oldest first. -/
structure sd_state where
  dst : Mem
  dev : Mem
  trace : List sd_access

/-- The body of the loop of `piton_sd_rw`: one 8-byte unit, `src` and `p`
being the current device and host offsets. -/
def rw_unit (rw src p : Nat) (st : sd_state) : sd_state :=
  if rw = PITON_SD_READ then
    { dst := store64 st.dst p (ioread64 st.dev src)
      dev := st.dev
      trace := st.trace ++ [⟨false, src, p⟩] }
  else
    { dst := st.dst
      dev := iowrite64 st.dev (load64 st.dst p) src
      trace := st.trace ++ [⟨true, src, p⟩] }

/-- The loop `for (i = 0; i < size; i += 8)` of `piton_sd_rw`, entered at
counter value `i`.  `i` is an `unsigned long`, so `i += 8` wraps at `2^64`.
`none` means the fuel ran out before the loop condition failed. -/
def rw_loop : Nat → Nat → Nat → Nat → Nat → Nat → sd_state → Option sd_state
  | 0, _, size, i, _, _, st => if i < size then none else some st
  | fuel + 1, rw, size, i, src, p, st =>
    if i < size then
      rw_loop fuel rw size ((i + 8) % 2 ^ 64) (src + 8) (p + 8) (rw_unit rw src p st)
    else some st

/-- The function `piton_sd_rw(rw, dst, lba, size)`.  `lba` is a `uint32_t`
parameter, so the argument is narrowed on entry; `src` starts at
`piton_sd_base_addr + (((uint64_t)lba) << 9)`.  The loop needs at most
`size / 8 + 1` rounds unless the counter wraps. -/
def piton_sd_rw (rw : Nat) (dst dev : Mem) (lba size : Nat) : Option sd_state :=
  rw_loop (size / 8 + 1) rw size 0 (((lba % 2 ^ 32) <<< 9) % 2 ^ 64) 0
    { dst := dst, dev := dev, trace := [] }

/-! ### Block-I/O submission (`piton_sd_submit_bio`) -/

/-- One step of the kernel iterator `bio_for_each_segment(bvec, bio, iter)`
as the loop body sees it: the current sector `iter.bi_sector` (a 64-bit
`sector_t`), the segment length `bvec.bv_len` and the host memory at
`page_to_virt(bvec.bv_page) + bvec.bv_offset`. -/
structure bio_vec where
  bi_sector : Nat
  bv_len : Nat
  buf : Mem

/-- A block-I/O request as the driver sees it: the value of
`bio_data_dir(bio)` and the segments the iterator yields, in order. -/
structure bio where
  dir : Nat
  segs : List bio_vec

/-- The state threaded through the segment loop of `piton_sd_submit_bio`: the
segments already served (with their buffers after the transfer), the device
memory and the unit accesses performed, oldest first. -/
structure bio_state where
  served : List bio_vec
  dev : Mem
  trace : List sd_access

/-- The loop `bio_for_each_segment(bvec, bio, iter)` of
`piton_sd_submit_bio`: each segment is handed to `piton_sd_rw` with its
current sector as the block address. -/
def bio_segments : Nat → List bio_vec → bio_state → Option bio_state
  | _, [], st => some st
  | direction, bvec :: rest, st =>
    match piton_sd_rw direction bvec.buf st.dev bvec.bi_sector bvec.bv_len with
    | none => none
    | some r =>
      bio_segments direction rest
        { served := st.served
            ++ [{ bi_sector := bvec.bi_sector, bv_len := bvec.bv_len, buf := r.dst }]
          dev := r.dev
          trace := st.trace ++ r.trace }

/-- The function `piton_sd_submit_bio(bio)` on device memory `dev`. -/
def piton_sd_submit_bio (b : bio) (dev : Mem) : Option bio_state :=
  bio_segments b.dir b.segs { served := [], dev := dev, trace := [] }

/-! ### Initialisation (`piton_sd_init`) -/

/-- The partition table header `gpt_pth_t` (LBA 1). -/
structure gpt_pth where
  signature : Nat
  revision : Nat
  header_size : Nat
  crc_header : Nat
  reserved : Nat
  current_lba : Nat
  backup_lba : Nat
  first_usable_lba : Nat
  last_usable_lba : Nat
  disk_guid : List Nat
  partition_entries_lba : Nat
  nr_partition_entries : Nat
  size_partition_entry : Nat
  crc_partition_entry : Nat

/-- The cast `pth = (gpt_pth_t *)lba_buf`: the fields of the C struct at their
offsets in the buffer. -/
def gpt_pth_of (lba_buf : Mem) : gpt_pth :=
  { signature := load64 lba_buf 0
    revision := load32 lba_buf 8
    header_size := load32 lba_buf 12
    crc_header := load32 lba_buf 16
    reserved := load32 lba_buf 20
    current_lba := load64 lba_buf 24
    backup_lba := load64 lba_buf 32
    first_usable_lba := load64 lba_buf 40
    last_usable_lba := load64 lba_buf 48
    disk_guid := (List.range 16).map (fun k => lba_buf (56 + k) % 256)
    partition_entries_lba := load64 lba_buf 72
    nr_partition_entries := load32 lba_buf 80
    size_partition_entry := load32 lba_buf 84
    crc_partition_entry := load32 lba_buf 88 }

/-- What `piton_sd_init` takes from the kernel, as far as the code tests it:
the errno constant `EIO`, whether `ioremap(addr, size)` returns a non-NULL
pointer, the return values of `register_blkdev`, `blk_mq_alloc_tag_set` and
`add_disk`, whether `blk_mq_init_queue` returns a non-NULL pointer (the test
of line 159 is `queue == NULL` and nothing else) and whether the pointer
`blk_mq_alloc_disk` returns fails the test `IS_ERR`. -/
structure init_env where
  EIO : Int
  ioremap : Nat → Nat → Bool
  register_blkdev : Int
  blk_mq_alloc_tag_set : Int
  blk_mq_init_queue : Bool
  blk_mq_alloc_disk : Bool
  add_disk : Int

/-- What `piton_sd_init` leaves behind: its return value, the `ioremap`
requests it made (address and size, oldest first), and the argument of
`set_capacity` when that call is reached. -/
structure init_result where
  ret : Int
  ioremaps : List (Nat × Nat)
  capacity : Option Nat
deriving DecidableEq, Repr

/-- The function `piton_sd_init()`, run on device memory `dev` with the
(uninitialised) stack buffer `lba_buf`.  `backup_lba` is a `uint64_t`, so
`backup_lba + 1` and the product with the block size wrap at `2^64`. -/
def piton_sd_init (env : init_env) (lba_buf dev : Mem) : Option init_result :=
  if env.ioremap PITON_SD_BASE_ADDR 4096 = false then
    some { ret := - env.EIO, ioremaps := [(PITON_SD_BASE_ADDR, 4096)], capacity := none }
  else
    match piton_sd_rw PITON_SD_READ lba_buf dev 1 PITON_SD_BLOCK_SIZE with
    | none => none
    | some st =>
      let pth := gpt_pth_of st.dst
      let full := ((pth.backup_lba + 1) % 2 ^ 64 * PITON_SD_BLOCK_SIZE) % 2 ^ 64
      let maps := [(PITON_SD_BASE_ADDR, 4096), (PITON_SD_BASE_ADDR, full)]
      if env.ioremap PITON_SD_BASE_ADDR full = false then
        some { ret := - env.EIO, ioremaps := maps, capacity := none }
      else if env.register_blkdev ≤ 0 then
        some { ret := - env.EIO, ioremaps := maps, capacity := none }
      else if env.blk_mq_alloc_tag_set ≠ 0 then
        some { ret := - env.EIO, ioremaps := maps, capacity := none }
      else if env.blk_mq_init_queue = false then
        some { ret := - env.EIO, ioremaps := maps, capacity := none }
      else if env.blk_mq_alloc_disk = false then
        some { ret := - env.EIO, ioremaps := maps, capacity := none }
      else
        some { ret := env.add_disk, ioremaps := maps
               capacity := some ((pth.backup_lba + 1) % 2 ^ 64) }

/-- The 8-byte magic "EFI PART" read as a little-endian 64-bit integer. -/
def GPT_SIGNATURE : Nat := 0x5452415020494645

/-- The 512-byte block at LBA 1 of device memory, indexed from its first byte. -/
def lba1_block (dev : Mem) : Mem := fun i => dev (PITON_SD_BLOCK_SIZE + i)

/-- A device that is zero everywhere except for an LBA-1 header carrying the
given signature, `header_size = 92` and the given `backup_lba`. -/
def gpt_disk (signature backup_lba : Nat) : Mem :=
  store64 (store64 (store64 (fun _ => 0) 512 signature) 524 92) 544 backup_lba

/-- Kernel services that all succeed, `register_blkdev` handing out major 254
and `add_disk` returning 0; `EIO` has its Linux value 5. -/
def ok_env : init_env :=
  { EIO := 5
    ioremap := fun _ _ => true
    register_blkdev := 254
    blk_mq_alloc_tag_set := 0
    blk_mq_init_queue := true
    blk_mq_alloc_disk := true
    add_disk := 0 }

end PitonSD

namespace PitonMMC

open PitonSD (Mem)

/-- Modelled from the spec: the kernel routine `memcpy_toio(dst, src, n)`
(`linux/io.h`, not under `src/`), the write direction of a fragment transfer:
`n` bytes of the host buffer `src` go to device offsets `off .. off + n - 1`. -/
def memcpy_toio (dev : Mem) (off : Nat) (src : Mem) (n : Nat) : Mem :=
  fun x => if off ≤ x ∧ x < off + n then src (x - off) % 256 else dev x

/-- Modelled from the spec: the kernel routine `memcpy_fromio(dst, src, n)`
(`linux/io.h`, not under `src/`), the read direction of a fragment transfer:
`n` bytes from device offsets `off .. off + n - 1` go to the start of the host
buffer `dst`. -/
def memcpy_fromio (dst : Mem) (dev : Mem) (off n : Nat) : Mem :=
  fun y => if y < n then dev (off + y) % 256 else dst y

/-- One entry of a scatterlist: `sg->length` and the host memory at
`sg_virt(sg)`. -/
structure scatterlist where
  length : Nat
  buf : Mem

/-- The fields of `struct mmc_data` the driver reads; `sg_len` is the length
of `sg`. -/
structure mmc_data where
  blocks : Nat
  blksz : Nat
  flags : Nat
  sg : List scatterlist

/-- The fields of `struct piton_mmc_host` that `piton_mmc_request` touches,
`sdmem` being the device memory behind the mapped window and `has_data`
telling whether `host->data` is non-NULL. -/
structure piton_mmc_host where
  sdmem : Mem
  has_data : Bool
  blk_addr : Nat
  buf_size : Nat
  rw : Bool
  bytes_remain : Nat
  sg_len : Nat

/-- What `piton_mmc_request` emits, in program order: a firing `WARN_ON` of
the last-entry check (with the two values compared), a copy in either
direction (device byte offset from `host->sdmem`, byte count), and the
`dev_dbg` line after the loop (with the two values it prints). -/
inductive mmc_event where
  | warn_on (length bytes_remain : Nat)
  | copy_toio (dev_off len : Nat)
  | copy_fromio (dev_off len : Nat)
  | short_dbg (bytes_remain buf_size : Nat)
deriving DecidableEq, Repr

/-- The state threaded through `piton_mmc_request`: the host structure, the
scatterlist entries already served (with their buffers after the copy), the
events emitted so far, and whether `mmc_request_done` has been called. -/
structure mmc_state where
  host : piton_mmc_host
  served : List scatterlist
  log : List mmc_event
  request_done : Bool

/-- The body of the loop over the scatterlist in `piton_mmc_request`, for the
entry `sg`; `is_last` is the value of `sg_is_last(sg)`.  `host->buf_size` is a
`size_t`. -/
def sg_body (sg : scatterlist) (is_last : Bool) (st : mmc_state) : mmc_state :=
  let sd_blk_addr := st.host.blk_addr + st.host.buf_size
  let log1 :=
    if is_last = true ∧ sg.length ≠ st.host.bytes_remain then
      st.log ++ [mmc_event.warn_on sg.length st.host.bytes_remain]
    else st.log
  let st1 : mmc_state :=
    if st.host.rw = true then
      { host := { st.host with sdmem := memcpy_toio st.host.sdmem sd_blk_addr sg.buf sg.length }
        served := st.served ++ [sg]
        log := log1 ++ [mmc_event.copy_toio sd_blk_addr sg.length]
        request_done := st.request_done }
    else
      { host := st.host
        served := st.served
          ++ [{ length := sg.length
                buf := memcpy_fromio sg.buf st.host.sdmem sd_blk_addr sg.length }]
        log := log1 ++ [mmc_event.copy_fromio sd_blk_addr sg.length]
        request_done := st.request_done }
  { st1 with host := { st1.host with buf_size := (st1.host.buf_size + sg.length) % 2 ^ 64 } }

/-- Modelled from the spec: the kernel test `sg_is_last(sg)`
(`linux/scatterlist.h`, not under `src/`), true "when processing the final
fragment in the list", that is when no entry follows `sg`. -/
def sg_is_last (following : List scatterlist) : Bool := following.isEmpty

/-- The loop `for_each_sg(data->sg, sg, data->sg_len, i)` of
`piton_mmc_request`, over the `sg_len` entries in list order. -/
def for_each_sg : List scatterlist → mmc_state → mmc_state
  | [], st => st
  | sg :: rest, st => for_each_sg rest (sg_body sg (sg_is_last rest) st)

/-- The first half of `piton_mmc_request` for a request with data: the field
assignments of lines 70-76 followed by the loop over the scatterlist.
`data->blocks * data->blksz` is a product of two `unsigned int`, so it wraps
at `2^32`; `MMC_DATA_WRITE` is the kernel flag bit tested for the direction. -/
def piton_mmc_request_loop (MMC_DATA_WRITE : Nat) (host : piton_mmc_host) (cmd_arg : Nat)
    (data : mmc_data) : mmc_state :=
  for_each_sg data.sg
    { host :=
        { sdmem := host.sdmem
          has_data := true
          blk_addr := cmd_arg
          buf_size := 0
          rw := decide (data.flags &&& MMC_DATA_WRITE ≠ 0)
          bytes_remain := (data.blocks * data.blksz) % 2 ^ 32
          sg_len := data.sg.length }
      served := []
      log := []
      request_done := false }

/-- The function `piton_mmc_request(mmc, req)`: `cmd_arg` is `req->cmd->arg`
and `data` is `req->data` (`none` for NULL). -/
def piton_mmc_request (MMC_DATA_WRITE : Nat) (host : piton_mmc_host) (cmd_arg : Nat)
    (data : Option mmc_data) : mmc_state :=
  match data with
  | none => { host := host, served := [], log := [], request_done := false }
  | some d =>
    let st := piton_mmc_request_loop MMC_DATA_WRITE host cmd_arg d
    let log1 :=
      if st.host.bytes_remain ≠ st.host.buf_size then
        st.log ++ [mmc_event.short_dbg st.host.bytes_remain st.host.buf_size]
      else st.log
    { host :=
        { st.host with
          has_data := false, bytes_remain := 0, buf_size := 0, rw := false, blk_addr := 0 }
      served := st.served
      log := log1
      request_done := true }

/-- The byte count of a copy event, `none` for the diagnostics. -/
def mmc_event.copy_len : mmc_event → Option Nat
  | mmc_event.copy_toio _ n => some n
  | mmc_event.copy_fromio _ n => some n
  | _ => none

/-- Whether an event is the `dev_dbg` line after the loop. -/
def mmc_event.is_short : mmc_event → Bool
  | mmc_event.short_dbg _ _ => true
  | _ => false

/-- Whether an event is a firing `WARN_ON` of the last-entry check. -/
def mmc_event.is_warn : mmc_event → Bool
  | mmc_event.warn_on _ _ => true
  | _ => false

/-- The device byte offset and byte count of a copy event. -/
def mmc_event.copy_at : mmc_event → Option (Nat × Nat)
  | mmc_event.copy_toio off n => some (off, n)
  | mmc_event.copy_fromio off n => some (off, n)
  | _ => none

/-- The offsets and lengths of a walk that starts at byte offset `off` and
advances by each entry's length. -/
def cursor_offsets : Nat → List scatterlist → List (Nat × Nat)
  | _, [] => []
  | off, sg :: rest => (off, sg.length) :: cursor_offsets (off + sg.length) rest

/-- The copy event of one fragment in the direction `w` (`true` for a write
to the device). -/
def copy_event (w : Bool) (off n : Nat) : mmc_event :=
  if w = true then mmc_event.copy_toio off n else mmc_event.copy_fromio off n

/-- The copy events of a walk in direction `w` that starts at byte offset
`off` and advances by each entry's length. -/
def copy_events (w : Bool) : Nat → List scatterlist → List mmc_event
  | _, [] => []
  | off, sg :: rest => copy_event w off sg.length :: copy_events w (off + sg.length) rest

/-- The entries of a list after a read walk over device memory `sdmem` that
starts at byte offset `off` (proof device). -/
def read_served (sdmem : Mem) : Nat → List scatterlist → List scatterlist
  | _, [] => []
  | off, sg :: rest =>
    { length := sg.length, buf := memcpy_fromio sg.buf sdmem off sg.length }
      :: read_served sdmem (off + sg.length) rest

/-- The sum of the `length` fields of a scatterlist. -/
def sg_total (l : List scatterlist) : Nat := (l.map (fun sg => sg.length)).sum

/-- A write request of two 512-byte blocks whose second and last fragment is
100 bytes short. -/
def short_write_data : mmc_data :=
  { blocks := 2, blksz := 512, flags := 256
    sg := [⟨512, fun y => y % 7 + 1⟩, ⟨412, fun y => y % 5 + 10⟩] }

/-- An idle host structure over device memory `sdmem`. -/
def idle_host (sdmem : Mem) : piton_mmc_host :=
  { sdmem := sdmem, has_data := false, blk_addr := 0, buf_size := 0, rw := false
    bytes_remain := 0, sg_len := 0 }

end PitonMMC

namespace PitonSD

/-! ### Closed form of the transfer loop (proof device) -/

/-- The effect of `n` consecutive loop rounds. -/
def rw_units : Nat → Nat → Nat → Nat → sd_state → sd_state
  | 0, _, _, _, st => st
  | n + 1, rw, src, p, st => rw_units n rw (src + 8) (p + 8) (rw_unit rw src p st)

theorem rw_loop_eq_units (rw size : Nat) (hsize : size + 7 < 2 ^ 64) :
    ∀ (fuel i src p : Nat) (st : sd_state), (size - i + 7) / 8 ≤ fuel →
      rw_loop fuel rw size i src p st
        = some (rw_units ((size - i + 7) / 8) rw src p st) := by
  intro fuel
  induction fuel with
  | zero =>
    intro i src p st h
    have h0 : (size - i + 7) / 8 = 0 := by omega
    have hi : ¬ i < size := by omega
    simp [rw_loop, hi, h0, rw_units]
  | succ fuel ih =>
    intro i src p st h
    by_cases hi : i < size
    · have hmod : (i + 8) % 2 ^ 64 = i + 8 := Nat.mod_eq_of_lt (by omega)
      have hn : (size - i + 7) / 8 = (size - (i + 8) + 7) / 8 + 1 := by omega
      rw [rw_loop, if_pos hi, hmod, ih (i + 8) (src + 8) (p + 8) _ (by omega), hn, rw_units]
    · have h0 : (size - i + 7) / 8 = 0 := by omega
      simp [rw_loop, hi, h0, rw_units]

theorem piton_sd_rw_eq_units (rw : Nat) (dst dev : Mem) (lba size : Nat)
    (hsize : size + 7 < 2 ^ 64) :
    piton_sd_rw rw dst dev lba size
      = some (rw_units ((size + 7) / 8) rw ((lba % 2 ^ 32) * 512) 0
          { dst := dst, dev := dev, trace := [] }) := by
  have hsrc : ((lba % 2 ^ 32) <<< 9) % 2 ^ 64 = (lba % 2 ^ 32) * 512 := by
    rw [Nat.shiftLeft_eq]
    have : lba % 2 ^ 32 < 2 ^ 32 := Nat.mod_lt _ (by norm_num)
    omega
  unfold piton_sd_rw
  rw [hsrc, rw_loop_eq_units rw size hsize _ 0 _ 0 _ (by omega)]
  simp

/-! ### Bytes moved by the transfer loop -/

theorem store64_load64 (m h : Mem) (a b x : Nat) :
    store64 m a (load64 h b) x
      = if a ≤ x ∧ x < a + 8 then h (b + (x - a)) % 256 else m x := by
  unfold store64
  by_cases hx : a ≤ x ∧ x < a + 8
  · rw [if_pos hx, if_pos hx]
    obtain ⟨k, hk⟩ : ∃ k, x - a = k := ⟨_, rfl⟩
    have hk8 : k < 8 := by omega
    rw [hk]
    unfold load64
    interval_cases k <;> norm_num <;> omega
  · rw [if_neg hx, if_neg hx]

theorem rw_units_trace (rw : Nat) :
    ∀ (n src p : Nat) (st : sd_state),
      (rw_units n rw src p st).trace
        = st.trace ++ (List.range n).map
            (fun j => (⟨decide (rw ≠ PITON_SD_READ), src + 8 * j, p + 8 * j⟩ : sd_access)) := by
  intro n
  induction n with
  | zero => intro src p st; simp [rw_units]
  | succ n ih =>
    intro src p st
    rw [rw_units, ih, List.range_succ_eq_map]
    by_cases hrw : rw = PITON_SD_READ
    · simp [rw_unit, hrw, Function.comp_def]
      intro a _
      omega
    · simp [rw_unit, hrw, Function.comp_def]
      intro a _
      omega

theorem rw_units_read :
    ∀ (n src p : Nat) (st : sd_state),
      (rw_units n PITON_SD_READ src p st).dev = st.dev ∧
      ∀ y, (rw_units n PITON_SD_READ src p st).dst y
        = if p ≤ y ∧ y < p + 8 * n then st.dev (src + (y - p)) % 256 else st.dst y := by
  intro n
  induction n with
  | zero =>
    intro src p st
    refine ⟨rfl, fun y => ?_⟩
    rw [if_neg (by omega)]
    rfl
  | succ n ih =>
    intro src p st
    obtain ⟨hdev, hdst⟩ := ih (src + 8) (p + 8) (rw_unit PITON_SD_READ src p st)
    have hu_dev : (rw_unit PITON_SD_READ src p st).dev = st.dev := by simp [rw_unit]
    have hu_dst : (rw_unit PITON_SD_READ src p st).dst
        = store64 st.dst p (load64 st.dev src) := by simp [rw_unit, ioread64]
    refine ⟨by rw [rw_units, hdev, hu_dev], fun y => ?_⟩
    rw [rw_units, hdst, hu_dev, hu_dst, store64_load64]
    by_cases h1 : p + 8 ≤ y ∧ y < p + 8 + 8 * n
    · rw [if_pos h1, if_pos (by omega)]
      congr 2
      omega
    · rw [if_neg h1]
      by_cases h2 : p ≤ y ∧ y < p + 8
      · rw [if_pos h2, if_pos (by omega)]
      · rw [if_neg h2, if_neg (by omega)]

theorem rw_units_write (rw : Nat) (hrw : rw ≠ PITON_SD_READ) :
    ∀ (n src p : Nat) (st : sd_state),
      (rw_units n rw src p st).dst = st.dst ∧
      ∀ x, (rw_units n rw src p st).dev x
        = if src ≤ x ∧ x < src + 8 * n then st.dst (p + (x - src)) % 256 else st.dev x := by
  intro n
  induction n with
  | zero =>
    intro src p st
    refine ⟨rfl, fun x => ?_⟩
    rw [if_neg (by omega)]
    rfl
  | succ n ih =>
    intro src p st
    obtain ⟨hdst, hdev⟩ := ih (src + 8) (p + 8) (rw_unit rw src p st)
    have hu_dst : (rw_unit rw src p st).dst = st.dst := by simp [rw_unit, hrw]
    have hu_dev : (rw_unit rw src p st).dev
        = store64 st.dev src (load64 st.dst p) := by simp [rw_unit, hrw, iowrite64]
    refine ⟨by rw [rw_units, hdst, hu_dst], fun x => ?_⟩
    rw [rw_units, hdev, hu_dst, hu_dev, store64_load64]
    by_cases h1 : src + 8 ≤ x ∧ x < src + 8 + 8 * n
    · rw [if_pos h1, if_pos (by omega)]
      congr 2
      omega
    · rw [if_neg h1]
      by_cases h2 : src ≤ x ∧ x < src + 8
      · rw [if_pos h2, if_pos (by omega)]
      · rw [if_neg h2, if_neg (by omega)]

/-- C1. Write-then-read round trip: on any device memory, for any block
address and any length `N` that is a multiple of 8 (an `unsigned long`), a
write of the `N`-byte host buffer `B` returns, leaves `B` as it was, and a
following read of `N` bytes at the same block address into any buffer returns
too and leaves in it the bytes of `B`, one for one. -/
theorem write_then_read_roundtrip (dev B B0 : Mem) (lba N : Nat)
    (hN8 : N % 8 = 0) (hN : N < 2 ^ 64) (hB : ∀ i, i < N → B i < 256) :
    ∃ w r, piton_sd_rw PITON_SD_WRITE B dev lba N = some w
      ∧ w.dst = B
      ∧ piton_sd_rw PITON_SD_READ B0 w.dev lba N = some r
      ∧ ∀ i, i < N → r.dst i = B i := by
  have hsz : N + 7 < 2 ^ 64 := by omega
  have hn : 8 * ((N + 7) / 8) = N := by omega
  have hne : PITON_SD_WRITE ≠ PITON_SD_READ := by decide
  obtain ⟨hwdst, hwdev⟩ := rw_units_write PITON_SD_WRITE hne ((N + 7) / 8)
    ((lba % 2 ^ 32) * 512) 0 { dst := B, dev := dev, trace := [] }
  refine ⟨_, _, piton_sd_rw_eq_units _ _ _ _ _ hsz, hwdst,
    piton_sd_rw_eq_units _ _ _ _ _ hsz, fun i hi => ?_⟩
  obtain ⟨_, hrdst⟩ := rw_units_read ((N + 7) / 8) ((lba % 2 ^ 32) * 512) 0
    { dst := B0
      dev := (rw_units ((N + 7) / 8) PITON_SD_WRITE ((lba % 2 ^ 32) * 512) 0
        { dst := B, dev := dev, trace := [] }).dev
      trace := [] }
  rw [hrdst i, if_pos (by omega)]
  simp only []
  rw [hwdev, if_pos (by omega)]
  simp only []
  have hidx : 0 + (lba % 2 ^ 32 * 512 + (i - 0) - lba % 2 ^ 32 * 512) = i := by omega
  rw [hidx, Nat.mod_mod]
  exact Nat.mod_eq_of_lt (hB i hi)

theorem write_then_read_roundtrip_witness :
    ∃ w r, piton_sd_rw PITON_SD_WRITE (fun i => i % 256) (fun _ => 0) 3 16 = some w
      ∧ w.dst = (fun i => i % 256)
      ∧ piton_sd_rw PITON_SD_READ (fun _ => 7) w.dev 3 16 = some r
      ∧ ∀ i, i < 16 → r.dst i = (fun i => i % 256) i :=
  write_then_read_roundtrip (fun _ => 0) (fun i => i % 256) (fun _ => 7) 3 16
    (by decide) (by norm_num) (fun i _ => Nat.mod_lt i (by decide))

end PitonSD

namespace PitonMMC

open PitonSD (Mem)

/-! ### The walk over the scatterlist -/

theorem sg_body_fields (sg : scatterlist) (il : Bool) (st : mmc_state) :
    (sg_body sg il st).host.bytes_remain = st.host.bytes_remain
      ∧ (sg_body sg il st).host.blk_addr = st.host.blk_addr
      ∧ (sg_body sg il st).host.rw = st.host.rw
      ∧ (sg_body sg il st).request_done = st.request_done
      ∧ (sg_body sg il st).host.buf_size = (st.host.buf_size + sg.length) % 2 ^ 64
      ∧ (sg_body sg il st).served.length = st.served.length + 1 := by
  unfold sg_body
  by_cases hrw : st.host.rw = true <;> simp [hrw]

theorem sg_body_log (sg : scatterlist) (il : Bool) (st : mmc_state) :
    (sg_body sg il st).log
      = st.log
        ++ (if il = true ∧ sg.length ≠ st.host.bytes_remain then
              [mmc_event.warn_on sg.length st.host.bytes_remain] else [])
        ++ [if st.host.rw = true then
              mmc_event.copy_toio (st.host.blk_addr + st.host.buf_size) sg.length
            else mmc_event.copy_fromio (st.host.blk_addr + st.host.buf_size) sg.length] := by
  unfold sg_body
  by_cases hrw : st.host.rw = true <;>
    by_cases hw : il = true ∧ sg.length ≠ st.host.bytes_remain <;> simp [hrw, hw]

theorem for_each_sg_fields :
    ∀ (l : List scatterlist) (st : mmc_state),
      (for_each_sg l st).host.bytes_remain = st.host.bytes_remain
        ∧ (for_each_sg l st).host.blk_addr = st.host.blk_addr
        ∧ (for_each_sg l st).host.rw = st.host.rw
        ∧ (for_each_sg l st).request_done = st.request_done := by
  intro l
  induction l with
  | nil => intro st; simp [for_each_sg]
  | cons sg rest ih =>
    intro st
    rw [for_each_sg]
    obtain ⟨h1, h2, h3, h4⟩ := ih (sg_body sg (sg_is_last rest) st)
    obtain ⟨g1, g2, g3, g4, _, _⟩ := sg_body_fields sg (sg_is_last rest) st
    exact ⟨h1.trans g1, h2.trans g2, h3.trans g3, h4.trans g4⟩

theorem for_each_sg_buf_size :
    ∀ (l : List scatterlist) (st : mmc_state),
      st.host.buf_size + sg_total l < 2 ^ 64 →
      (for_each_sg l st).host.buf_size = st.host.buf_size + sg_total l := by
  intro l
  induction l with
  | nil => intro st _; simp [for_each_sg, sg_total]
  | cons sg rest ih =>
    intro st h
    have hsum : sg_total (sg :: rest) = sg.length + sg_total rest := by
      simp [sg_total]
    rw [hsum] at h
    obtain ⟨_, _, _, _, g5, _⟩ := sg_body_fields sg (sg_is_last rest) st
    have hm : (st.host.buf_size + sg.length) % 2 ^ 64 = st.host.buf_size + sg.length :=
      Nat.mod_eq_of_lt (by omega)
    rw [hm] at g5
    rw [for_each_sg, hsum, ih _ (by rw [g5]; omega), g5]
    omega

theorem for_each_sg_copies :
    ∀ (l : List scatterlist) (st : mmc_state),
      (for_each_sg l st).log.filterMap mmc_event.copy_len
        = st.log.filterMap mmc_event.copy_len ++ l.map (fun sg => sg.length) := by
  intro l
  induction l with
  | nil => intro st; simp [for_each_sg]
  | cons sg rest ih =>
    intro st
    rw [for_each_sg, ih, sg_body_log]
    by_cases hw : sg_is_last rest = true ∧ sg.length ≠ st.host.bytes_remain
    · rw [if_pos hw]
      by_cases hrw : st.host.rw = true <;>
        simp [hrw, List.filterMap_append, mmc_event.copy_len]
    · rw [if_neg hw]
      by_cases hrw : st.host.rw = true <;>
        simp [hrw, List.filterMap_append, mmc_event.copy_len]

theorem for_each_sg_short :
    ∀ (l : List scatterlist) (st : mmc_state),
      (for_each_sg l st).log.filter mmc_event.is_short
        = st.log.filter mmc_event.is_short := by
  intro l
  induction l with
  | nil => intro st; simp [for_each_sg]
  | cons sg rest ih =>
    intro st
    rw [for_each_sg, ih, sg_body_log]
    by_cases hw : sg_is_last rest = true ∧ sg.length ≠ st.host.bytes_remain
    · rw [if_pos hw]
      by_cases hrw : st.host.rw = true <;>
        simp [hrw, List.filter_append, mmc_event.is_short]
    · rw [if_neg hw]
      by_cases hrw : st.host.rw = true <;>
        simp [hrw, List.filter_append, mmc_event.is_short]

theorem for_each_sg_served_length :
    ∀ (l : List scatterlist) (st : mmc_state),
      (for_each_sg l st).served.length = st.served.length + l.length := by
  intro l
  induction l with
  | nil => intro st; simp [for_each_sg]
  | cons sg rest ih =>
    intro st
    obtain ⟨_, _, _, _, _, g6⟩ := sg_body_fields sg (sg_is_last rest) st
    rw [for_each_sg, ih, g6, List.length_cons]
    omega

theorem sg_body_mem (sg : scatterlist) (il : Bool) (st : mmc_state) :
    (sg_body sg il st).host.sdmem
        = (if st.host.rw = true then
            memcpy_toio st.host.sdmem (st.host.blk_addr + st.host.buf_size) sg.buf sg.length
          else st.host.sdmem)
      ∧ (sg_body sg il st).served
        = st.served
          ++ [if st.host.rw = true then sg
              else { length := sg.length
                     buf := memcpy_fromio sg.buf st.host.sdmem
                       (st.host.blk_addr + st.host.buf_size) sg.length }] := by
  unfold sg_body
  by_cases hrw : st.host.rw = true <;> simp [hrw]

theorem sg_total_cons (sg : scatterlist) (rest : List scatterlist) :
    sg_total (sg :: rest) = sg.length + sg_total rest := by
  simp [sg_total]

theorem sg_total_append (l1 l2 : List scatterlist) :
    sg_total (l1 ++ l2) = sg_total l1 + sg_total l2 := by
  simp [sg_total]

theorem for_each_sg_log_full :
    ∀ (pre : List scatterlist) (last : scatterlist) (st : mmc_state),
      st.host.buf_size + sg_total (pre ++ [last]) < 2 ^ 64 →
      (for_each_sg (pre ++ [last]) st).log
        = st.log ++ copy_events st.host.rw (st.host.blk_addr + st.host.buf_size) pre
          ++ (if last.length ≠ st.host.bytes_remain then
                [mmc_event.warn_on last.length st.host.bytes_remain] else [])
          ++ [copy_event st.host.rw (st.host.blk_addr + st.host.buf_size + sg_total pre)
                last.length] := by
  intro pre
  induction pre with
  | nil =>
    intro last st _
    rw [List.nil_append, for_each_sg, for_each_sg, sg_body_log]
    have hl : (sg_is_last [] = true ∧ last.length ≠ st.host.bytes_remain)
        ↔ last.length ≠ st.host.bytes_remain := ⟨fun h => h.2, fun h => ⟨rfl, h⟩⟩
    simp only [hl, copy_events, copy_event, List.append_nil, sg_total, List.map_nil,
      List.sum_nil, Nat.add_zero]
  | cons sg rest ih =>
    intro last st h
    rw [List.cons_append, sg_total_cons] at h
    have hnl : ¬ (sg_is_last (rest ++ [last]) = true ∧ sg.length ≠ st.host.bytes_remain) := by
      intro hc
      have := hc.1
      simp [sg_is_last] at this
    obtain ⟨g1, g2, g3, _, g5, _⟩ := sg_body_fields sg (sg_is_last (rest ++ [last])) st
    have hm : (st.host.buf_size + sg.length) % 2 ^ 64 = st.host.buf_size + sg.length :=
      Nat.mod_eq_of_lt (by omega)
    rw [hm] at g5
    rw [List.cons_append, for_each_sg, ih last _ (by rw [g5]; omega), g1, g2, g3, g5,
      sg_body_log, if_neg hnl, copy_events, sg_total_cons]
    simp only [copy_event, List.append_nil, List.append_assoc, List.singleton_append,
      Nat.add_assoc]

theorem for_each_sg_write :
    ∀ (l : List scatterlist) (st : mmc_state),
      st.host.rw = true → st.host.buf_size + sg_total l < 2 ^ 64 →
      (for_each_sg l st).served = st.served ++ l
        ∧ (∀ x, (x < st.host.blk_addr + st.host.buf_size
              ∨ st.host.blk_addr + st.host.buf_size + sg_total l ≤ x) →
            (for_each_sg l st).host.sdmem x = st.host.sdmem x)
        ∧ (∀ pre sg post, l = pre ++ sg :: post → ∀ y, y < sg.length →
            (for_each_sg l st).host.sdmem
                (st.host.blk_addr + st.host.buf_size + sg_total pre + y)
              = sg.buf y % 256) := by
  intro l
  induction l with
  | nil =>
    intro st _ _
    refine ⟨by simp [for_each_sg], fun x _ => rfl, fun pre sg post h => ?_⟩
    simp at h
  | cons sg0 rest ih =>
    intro st hrw h
    rw [sg_total_cons] at h
    obtain ⟨_, g2, g3, _, g5, _⟩ := sg_body_fields sg0 (sg_is_last rest) st
    obtain ⟨m1, m2⟩ := sg_body_mem sg0 (sg_is_last rest) st
    have hm : (st.host.buf_size + sg0.length) % 2 ^ 64 = st.host.buf_size + sg0.length :=
      Nat.mod_eq_of_lt (by omega)
    rw [hm] at g5
    rw [if_pos hrw] at m1 m2
    obtain ⟨i1, i2, i3⟩ := ih (sg_body sg0 (sg_is_last rest) st) (by rw [g3]; exact hrw)
      (by rw [g5]; omega)
    rw [g2, g5] at i2 i3
    refine ⟨?_, fun x hx => ?_, fun pre sg post hl y hy => ?_⟩
    · rw [for_each_sg, i1, m2]
      simp
    · rw [for_each_sg, i2 x (by rw [sg_total_cons] at hx; omega), m1]
      rw [sg_total_cons] at hx
      simp only [memcpy_toio]
      rw [if_neg (by omega)]
    · cases pre with
      | nil =>
        simp only [List.nil_append, List.cons.injEq] at hl
        obtain ⟨hsg, _⟩ := hl
        subst hsg
        rw [for_each_sg, i2 _ (by simp only [sg_total, List.map_nil, List.sum_nil]; omega), m1]
        simp only [memcpy_toio, sg_total, List.map_nil, List.sum_nil]
        rw [if_pos (by omega)]
        congr 2
        omega
      | cons p pre2 =>
        simp only [List.cons_append, List.cons.injEq] at hl
        obtain ⟨hp, hrest⟩ := hl
        subst hp
        have := i3 pre2 sg post hrest y hy
        rw [for_each_sg, sg_total_cons]
        rw [← this]
        congr 1
        omega

theorem for_each_sg_read :
    ∀ (l : List scatterlist) (st : mmc_state),
      st.host.rw = false → st.host.buf_size + sg_total l < 2 ^ 64 →
      (for_each_sg l st).host.sdmem = st.host.sdmem
        ∧ (for_each_sg l st).served
          = st.served
            ++ read_served st.host.sdmem (st.host.blk_addr + st.host.buf_size) l := by
  intro l
  induction l with
  | nil => intro st _ _; simp [for_each_sg, read_served]
  | cons sg0 rest ih =>
    intro st hrw h
    rw [sg_total_cons] at h
    obtain ⟨_, g2, g3, _, g5, _⟩ := sg_body_fields sg0 (sg_is_last rest) st
    obtain ⟨m1, m2⟩ := sg_body_mem sg0 (sg_is_last rest) st
    have hm : (st.host.buf_size + sg0.length) % 2 ^ 64 = st.host.buf_size + sg0.length :=
      Nat.mod_eq_of_lt (by omega)
    rw [hm] at g5
    have hne : ¬ st.host.rw = true := by rw [hrw]; exact Bool.false_ne_true
    rw [if_neg hne] at m1 m2
    obtain ⟨i1, i2⟩ := ih (sg_body sg0 (sg_is_last rest) st) (by rw [g3]; exact hrw)
      (by rw [g5]; omega)
    refine ⟨by rw [for_each_sg, i1, m1], ?_⟩
    rw [for_each_sg, i2, m1, m2, g2, g5, read_served, Nat.add_assoc]
    simp

theorem read_served_split (m : Mem) :
    ∀ (pre : List scatterlist) (c : Nat) (sg : scatterlist) (post : List scatterlist),
      read_served m c (pre ++ sg :: post)
          = read_served m c pre
            ++ { length := sg.length
                 buf := memcpy_fromio sg.buf m (c + sg_total pre) sg.length }
              :: read_served m (c + sg_total pre + sg.length) post
        ∧ (read_served m c pre).length = pre.length := by
  intro pre
  induction pre with
  | nil => intro c sg post; simp [read_served, sg_total]
  | cons p pre2 ih =>
    intro c sg post
    obtain ⟨h1, h2⟩ := ih (c + p.length) sg post
    rw [List.cons_append, read_served, h1, read_served, sg_total_cons, List.length_cons, h2,
      Nat.add_assoc]
    exact ⟨rfl, rfl⟩

/-- What a request moves: in the write direction the entries are left as they
were, device bytes outside the walked range keep their value and every byte
of every fragment lands at the fragment's cursor; in the read direction
device memory is left as it was and every fragment receives the device bytes
at its cursor. -/
theorem request_moves_data (W : Nat) (host : piton_mmc_host) (cmd_arg : Nat) (data : mmc_data)
    (hfit : sg_total data.sg < 2 ^ 64) :
    (decide (data.flags &&& W ≠ 0) = true →
        (piton_mmc_request W host cmd_arg (some data)).served = data.sg
          ∧ (∀ x, (x < cmd_arg ∨ cmd_arg + sg_total data.sg ≤ x) →
              (piton_mmc_request W host cmd_arg (some data)).host.sdmem x = host.sdmem x)
          ∧ (∀ pre sg post, data.sg = pre ++ sg :: post → ∀ y, y < sg.length →
              (piton_mmc_request W host cmd_arg (some data)).host.sdmem
                  (cmd_arg + sg_total pre + y) = sg.buf y % 256))
      ∧ (decide (data.flags &&& W ≠ 0) = false →
        (piton_mmc_request W host cmd_arg (some data)).host.sdmem = host.sdmem
          ∧ (∀ pre sg post, data.sg = pre ++ sg :: post →
              ∃ before s after,
                (piton_mmc_request W host cmd_arg (some data)).served = before ++ s :: after
                  ∧ before.length = pre.length
                  ∧ s.length = sg.length
                  ∧ ∀ y, y < sg.length →
                      s.buf y = host.sdmem (cmd_arg + sg_total pre + y) % 256)) := by
  have hs : (piton_mmc_request W host cmd_arg (some data)).served
      = (piton_mmc_request_loop W host cmd_arg data).served := rfl
  have hmem : (piton_mmc_request W host cmd_arg (some data)).host.sdmem
      = (piton_mmc_request_loop W host cmd_arg data).host.sdmem := rfl
  rw [hs, hmem]
  unfold piton_mmc_request_loop
  constructor
  · intro hw
    obtain ⟨i1, i2, i3⟩ := for_each_sg_write data.sg
      { host :=
          { sdmem := host.sdmem
            has_data := true
            blk_addr := cmd_arg
            buf_size := 0
            rw := decide (data.flags &&& W ≠ 0)
            bytes_remain := (data.blocks * data.blksz) % 2 ^ 32
            sg_len := data.sg.length }
        served := []
        log := []
        request_done := false }
      hw (show 0 + sg_total data.sg < 2 ^ 64 by omega)
    simp only [Nat.add_zero] at i2 i3
    exact ⟨by rw [i1]; rfl, i2, i3⟩
  · intro hw
    obtain ⟨i1, i2⟩ := for_each_sg_read data.sg
      { host :=
          { sdmem := host.sdmem
            has_data := true
            blk_addr := cmd_arg
            buf_size := 0
            rw := decide (data.flags &&& W ≠ 0)
            bytes_remain := (data.blocks * data.blksz) % 2 ^ 32
            sg_len := data.sg.length }
        served := []
        log := []
        request_done := false }
      hw (show 0 + sg_total data.sg < 2 ^ 64 by omega)
    simp only [Nat.add_zero, List.nil_append] at i1 i2
    refine ⟨i1, fun pre sg post hl => ?_⟩
    obtain ⟨h1, h2⟩ := read_served_split host.sdmem pre cmd_arg sg post
    refine ⟨read_served host.sdmem cmd_arg pre,
      { length := sg.length
        buf := memcpy_fromio sg.buf host.sdmem (cmd_arg + sg_total pre) sg.length },
      read_served host.sdmem (cmd_arg + sg_total pre + sg.length) post,
      by rw [i2, hl, h1], h2, rfl, fun y hy => ?_⟩
    simp only [memcpy_fromio]
    rw [if_pos hy]

theorem request_loop_init (W : Nat) (host : piton_mmc_host) (cmd_arg : Nat) (data : mmc_data)
    (hfit : sg_total data.sg < 2 ^ 64) :
    (piton_mmc_request_loop W host cmd_arg data).host.bytes_remain
        = (data.blocks * data.blksz) % 2 ^ 32
      ∧ (piton_mmc_request_loop W host cmd_arg data).host.buf_size = sg_total data.sg
      ∧ (piton_mmc_request_loop W host cmd_arg data).log.filterMap mmc_event.copy_len
          = data.sg.map (fun sg => sg.length)
      ∧ (piton_mmc_request_loop W host cmd_arg data).log.filter mmc_event.is_short = [] := by
  unfold piton_mmc_request_loop
  refine ⟨?_, ?_, ?_, ?_⟩
  · rw [(for_each_sg_fields _ _).1]
  · rw [for_each_sg_buf_size _ _ (by simp only []; omega)]
    simp
  · rw [for_each_sg_copies]
    simp
  · rw [for_each_sg_short]
    simp

theorem request_log (W : Nat) (host : piton_mmc_host) (cmd_arg : Nat) (data : mmc_data) :
    (piton_mmc_request W host cmd_arg (some data)).log
      = (piton_mmc_request_loop W host cmd_arg data).log
        ++ (if (piton_mmc_request_loop W host cmd_arg data).host.bytes_remain
              ≠ (piton_mmc_request_loop W host cmd_arg data).host.buf_size then
            [mmc_event.short_dbg (piton_mmc_request_loop W host cmd_arg data).host.bytes_remain
              (piton_mmc_request_loop W host cmd_arg data).host.buf_size]
          else []) := by
  by_cases h : (piton_mmc_request_loop W host cmd_arg data).host.bytes_remain
      ≠ (piton_mmc_request_loop W host cmd_arg data).host.buf_size
  · rw [if_pos h]
    simp only [piton_mmc_request]
    rw [if_pos h]
  · rw [if_neg h]
    simp only [piton_mmc_request]
    rw [if_neg h, List.append_nil]

/-! ### The scatter-gather coordinator: claims C4, C5, C7 and C8 -/

/-- Accounting on a list whose lengths sum to the expected total, the value
the code computes as `data->blocks * data->blksz` and keeps in
`host->bytes_remain`: the lengths copied are those of the fragments, in list
order, `host->buf_size` equals the expected total when the loop ends, the
`dev_dbg` line after the loop is not emitted, and the request is completed. -/
theorem exact_accounting (W : Nat) (host : piton_mmc_host) (cmd_arg : Nat) (data : mmc_data)
    (hsum : sg_total data.sg = (data.blocks * data.blksz) % 2 ^ 32) :
    (piton_mmc_request W host cmd_arg (some data)).log.filterMap mmc_event.copy_len
        = data.sg.map (fun sg => sg.length)
      ∧ (piton_mmc_request_loop W host cmd_arg data).host.buf_size
          = (data.blocks * data.blksz) % 2 ^ 32
      ∧ (piton_mmc_request_loop W host cmd_arg data).host.bytes_remain
          = (data.blocks * data.blksz) % 2 ^ 32
      ∧ (piton_mmc_request W host cmd_arg (some data)).log.filter mmc_event.is_short = []
      ∧ (piton_mmc_request W host cmd_arg (some data)).request_done = true := by
  have hlt : (data.blocks * data.blksz) % 2 ^ 32 < 2 ^ 32 := Nat.mod_lt _ (by norm_num)
  obtain ⟨h1, h2, h3, h4⟩ := request_loop_init W host cmd_arg data (by omega)
  have heq : (piton_mmc_request_loop W host cmd_arg data).host.bytes_remain
      = (piton_mmc_request_loop W host cmd_arg data).host.buf_size := by
    rw [h1, h2, hsum]
  refine ⟨?_, by rw [h2, hsum], h1, ?_, rfl⟩
  · rw [request_log, if_neg (by rw [heq]; exact fun h => h rfl), List.append_nil]
    exact h3
  · rw [request_log, if_neg (by rw [heq]; exact fun h => h rfl), List.append_nil]
    exact h4

/-- C5. Short-transfer detection: when the list ends in a fragment that is
`k > 0` bytes shorter than the one that would bring the lengths to the
expected total `host->bytes_remain`, the request still transfers every
fragment of the list: its events are, in order, one copy per fragment in the
request's direction at the cursor `cmd->arg` plus the lengths before it (the
last one preceded by the firing last-entry check), then the `dev_dbg` line,
emitted once, whose two values, the expected total and the bytes moved, differ
by exactly `k`.  In the write direction every byte of every fragment is in
device memory at the fragment's cursor and the buffers are untouched; in the
read direction device memory is untouched and every fragment holds the device
bytes at its cursor.  The request is completed. -/
theorem short_transfer_detected (W : Nat) (host : piton_mmc_host) (cmd_arg : Nat)
    (data : mmc_data) (pre : List scatterlist) (last : scatterlist) (k : Nat)
    (hsg : data.sg = pre ++ [last]) (hk : 0 < k)
    (hsum : sg_total pre + (last.length + k) = (data.blocks * data.blksz) % 2 ^ 32) :
    (piton_mmc_request W host cmd_arg (some data)).log
        = copy_events (decide (data.flags &&& W ≠ 0)) cmd_arg pre
          ++ [mmc_event.warn_on last.length ((data.blocks * data.blksz) % 2 ^ 32),
              copy_event (decide (data.flags &&& W ≠ 0)) (cmd_arg + sg_total pre) last.length,
              mmc_event.short_dbg ((data.blocks * data.blksz) % 2 ^ 32) (sg_total data.sg)]
      ∧ sg_total data.sg + k = (data.blocks * data.blksz) % 2 ^ 32
      ∧ (piton_mmc_request W host cmd_arg (some data)).request_done = true
      ∧ (decide (data.flags &&& W ≠ 0) = true →
          (piton_mmc_request W host cmd_arg (some data)).served = data.sg
            ∧ (∀ x, (x < cmd_arg ∨ cmd_arg + sg_total data.sg ≤ x) →
                (piton_mmc_request W host cmd_arg (some data)).host.sdmem x = host.sdmem x)
            ∧ (∀ p sg q, data.sg = p ++ sg :: q → ∀ y, y < sg.length →
                (piton_mmc_request W host cmd_arg (some data)).host.sdmem
                    (cmd_arg + sg_total p + y) = sg.buf y % 256))
      ∧ (decide (data.flags &&& W ≠ 0) = false →
          (piton_mmc_request W host cmd_arg (some data)).host.sdmem = host.sdmem
            ∧ (∀ p sg q, data.sg = p ++ sg :: q →
                ∃ before s after,
                  (piton_mmc_request W host cmd_arg (some data)).served = before ++ s :: after
                    ∧ before.length = p.length
                    ∧ s.length = sg.length
                    ∧ ∀ y, y < sg.length →
                        s.buf y = host.sdmem (cmd_arg + sg_total p + y) % 256)) := by
  have hlt : (data.blocks * data.blksz) % 2 ^ 32 < 2 ^ 32 := Nat.mod_lt _ (by norm_num)
  have htot : sg_total data.sg = sg_total pre + last.length := by
    rw [hsg, sg_total_append, sg_total_cons]
    simp [sg_total]
  have hfit : sg_total data.sg < 2 ^ 64 := by omega
  obtain ⟨h1, h2, _, _⟩ := request_loop_init W host cmd_arg data hfit
  have hne : (piton_mmc_request_loop W host cmd_arg data).host.bytes_remain
      ≠ (piton_mmc_request_loop W host cmd_arg data).host.buf_size := by
    rw [h1, h2]; omega
  have hloop : (piton_mmc_request_loop W host cmd_arg data).log
      = copy_events (decide (data.flags &&& W ≠ 0)) cmd_arg pre
        ++ [mmc_event.warn_on last.length ((data.blocks * data.blksz) % 2 ^ 32),
            copy_event (decide (data.flags &&& W ≠ 0)) (cmd_arg + sg_total pre)
              last.length] := by
    unfold piton_mmc_request_loop
    rw [hsg, for_each_sg_log_full pre last _
      (by simp only []; rw [← hsg]; omega)]
    simp only [Nat.add_zero, List.nil_append]
    rw [if_pos (by omega)]
    simp
  obtain ⟨hwr, hrd⟩ := request_moves_data W host cmd_arg data hfit
  refine ⟨?_, by omega, rfl, hwr, hrd⟩
  rw [request_log, if_pos hne, hloop, h1, h2]
  simp

theorem short_transfer_detected_witness :
    (piton_mmc_request 256 (idle_host (fun _ => 0)) 8 (some short_write_data)).log
        = [mmc_event.copy_toio 8 512, mmc_event.warn_on 412 1024,
            mmc_event.copy_toio 520 412, mmc_event.short_dbg 1024 924]
      ∧ sg_total short_write_data.sg + 100 = 1024
      ∧ (piton_mmc_request 256 (idle_host (fun _ => 0)) 8 (some short_write_data)).host.sdmem
          (8 + 512 + 3) = (3 % 5 + 10) % 256 :=
  ⟨(short_transfer_detected 256 (idle_host (fun _ => 0)) 8 short_write_data
      [⟨512, fun y => y % 7 + 1⟩] ⟨412, fun y => y % 5 + 10⟩ 100 rfl (by decide) (by decide)).1,
    (short_transfer_detected 256 (idle_host (fun _ => 0)) 8 short_write_data
      [⟨512, fun y => y % 7 + 1⟩] ⟨412, fun y => y % 5 + 10⟩ 100 rfl (by decide) (by decide)).2.1,
    ((short_transfer_detected 256 (idle_host (fun _ => 0)) 8 short_write_data
      [⟨512, fun y => y % 7 + 1⟩] ⟨412, fun y => y % 5 + 10⟩ 100 rfl (by decide)
        (by decide)).2.2.2.1 (by decide)).2.2
      [⟨512, fun y => y % 7 + 1⟩] ⟨412, fun y => y % 5 + 10⟩ [] rfl 3 (by decide)⟩

/-- C7. The cursor at the failing input: a read request with `cmd->arg = 1`,
one block of 512 bytes and a single 512-byte fragment is copied from device
byte offset 1 (the fragment's first byte is the device byte at offset 1), not
from offset `1 * 512`. -/
theorem cursor_starts_at_cmd_arg :
    (piton_mmc_request 256 (idle_host (fun x => x % 256)) 1
        (some { blocks := 1, blksz := 512, flags := 512
                sg := [⟨512, fun _ => 0⟩] })).log
        = [mmc_event.copy_fromio 1 512]
      ∧ (piton_mmc_request 256 (idle_host (fun x => x % 256)) 1
          (some { blocks := 1, blksz := 512, flags := 512
                  sg := [⟨512, fun _ => 0⟩] })).served.map (fun sg => sg.buf 0)
        = [1] := by
  constructor <;> decide

/-- C8. The last-fragment check at the failing input: a read request of two
512-byte blocks carried by two 512-byte fragments (lengths summing to the
expected 1024 bytes) fires the `WARN_ON` of the last-entry check, which
compares the last length 512 with the whole expected total 1024, while the
accounting after the loop finds no mismatch. -/
theorem last_fragment_check_fires :
    (piton_mmc_request 256 (idle_host (fun _ => 0)) 0
        (some { blocks := 2, blksz := 512, flags := 512
                sg := [⟨512, fun _ => 0⟩, ⟨512, fun _ => 0⟩] })).log
      = [mmc_event.copy_fromio 0 512, mmc_event.warn_on 512 1024,
          mmc_event.copy_fromio 512 512] := by
  decide

end PitonMMC

namespace PitonSD

/-! ### The probe read of `piton_sd_init` -/

theorem load64_congr (m m2 : Mem) (a b : Nat)
    (h : ∀ k, k < 8 → m (a + k) % 256 = m2 (b + k) % 256) : load64 m a = load64 m2 b := by
  have h0 := h 0 (by omega)
  simp only [Nat.add_zero] at h0
  unfold load64
  rw [h0, h 1 (by omega), h 2 (by omega), h 3 (by omega), h 4 (by omega), h 5 (by omega),
    h 6 (by omega), h 7 (by omega)]

theorem probe_read (lba_buf dev : Mem) :
    ∃ st, piton_sd_rw PITON_SD_READ lba_buf dev 1 PITON_SD_BLOCK_SIZE = some st
      ∧ (gpt_pth_of st.dst).backup_lba = load64 (lba1_block dev) 32 := by
  have hsz : PITON_SD_BLOCK_SIZE + 7 < 2 ^ 64 := by decide
  refine ⟨_, piton_sd_rw_eq_units _ _ _ _ _ hsz, ?_⟩
  obtain ⟨_, hdst⟩ := rw_units_read ((PITON_SD_BLOCK_SIZE + 7) / 8) ((1 % 2 ^ 32) * 512) 0
    { dst := lba_buf, dev := dev, trace := [] }
  show load64 _ 32 = load64 (lba1_block dev) 32
  apply load64_congr
  intro k hk
  have hn : (PITON_SD_BLOCK_SIZE + 7) / 8 = 64 := by decide
  rw [hdst, hn, if_pos (by omega), Nat.mod_mod]
  simp only [lba1_block, PITON_SD_BLOCK_SIZE]
  congr 2

theorem piton_sd_init_outcome (env : init_env) (lba_buf dev : Mem)
    (hprobe : env.ioremap PITON_SD_BASE_ADDR 4096 = true) :
    piton_sd_init env lba_buf dev
      = some
          (if env.ioremap PITON_SD_BASE_ADDR
                (((load64 (lba1_block dev) 32 + 1) % 2 ^ 64 * 512) % 2 ^ 64) = true
              ∧ 0 < env.register_blkdev ∧ env.blk_mq_alloc_tag_set = 0
              ∧ env.blk_mq_init_queue = true ∧ env.blk_mq_alloc_disk = true then
            { ret := env.add_disk
              ioremaps := [(PITON_SD_BASE_ADDR, 4096),
                (PITON_SD_BASE_ADDR, ((load64 (lba1_block dev) 32 + 1) % 2 ^ 64 * 512) % 2 ^ 64)]
              capacity := some ((load64 (lba1_block dev) 32 + 1) % 2 ^ 64) }
          else
            { ret := - env.EIO
              ioremaps := [(PITON_SD_BASE_ADDR, 4096),
                (PITON_SD_BASE_ADDR, ((load64 (lba1_block dev) 32 + 1) % 2 ^ 64 * 512) % 2 ^ 64)]
              capacity := none }) := by
  obtain ⟨st, hst, hb⟩ := probe_read lba_buf dev
  unfold piton_sd_init
  rw [if_neg (by simp [hprobe]), hst]
  simp only [hb, PITON_SD_BLOCK_SIZE]
  generalize (load64 (lba1_block dev) 32 + 1) % 2 ^ 64 = cap
  generalize (cap * 512) % 2 ^ 64 = full
  by_cases h2 : env.ioremap PITON_SD_BASE_ADDR full = true
  · by_cases h3 : 0 < env.register_blkdev
    · by_cases h4 : env.blk_mq_alloc_tag_set = 0
      · by_cases h5 : env.blk_mq_init_queue = true
        · by_cases h6 : env.blk_mq_alloc_disk = true
          · simp [h2, h3, h4, h5, h6]
          · simp [h2, h3, h4, h5, h6]
        · simp [h2, h3, h4, h5]
      · simp [h2, h3, h4]
    · simp [h2, h3]
  · simp [h2]

/-! ### Initialisation: claims C2 and C3 -/

/-- C2, as stated, fails: with the "EFI PART" signature, `header_size = 92`
and `backup_lba = 2^64 - 1` in the LBA-1 block, initialisation succeeds with
capacity 0 and asks for a full mapping of 0 bytes, not `backup_lba + 1`
blocks and `(backup_lba + 1) * 512` bytes. -/
theorem capacity_wraps_counterexample :
    load64 (lba1_block (gpt_disk GPT_SIGNATURE (2 ^ 64 - 1))) 0 = GPT_SIGNATURE
      ∧ load32 (lba1_block (gpt_disk GPT_SIGNATURE (2 ^ 64 - 1))) 12 = 92
      ∧ load64 (lba1_block (gpt_disk GPT_SIGNATURE (2 ^ 64 - 1))) 32 = 2 ^ 64 - 1
      ∧ piton_sd_init ok_env (fun _ => 0) (gpt_disk GPT_SIGNATURE (2 ^ 64 - 1))
        = some { ret := 0
                 ioremaps := [(PITON_SD_BASE_ADDR, 4096), (PITON_SD_BASE_ADDR, 0)]
                 capacity := some 0 } := by
  refine ⟨by decide, by decide, by decide, by decide⟩

/-- C2, amended. Capacity derivation: for every LBA-1 block whose signature is
the "EFI PART" magic, whose `header_size` is 92 and whose `backup_lba` (the
little-endian 64-bit field at byte offset 32) satisfies
`backup_lba + 1 < 2^55`, initialisation with kernel services that succeed
returns the result of `add_disk`, sets the capacity to `backup_lba + 1` blocks
and asks for a full mapping of `(backup_lba + 1) * 512` bytes after the
4096-byte probe mapping. -/
theorem capacity_from_backup_lba (env : init_env) (lba_buf dev : Mem)
    (_hsig : load64 (lba1_block dev) 0 = GPT_SIGNATURE)
    (_hsize : load32 (lba1_block dev) 12 = 92)
    (hb : load64 (lba1_block dev) 32 + 1 < 2 ^ 55)
    (hprobe : env.ioremap PITON_SD_BASE_ADDR 4096 = true)
    (hfull : env.ioremap PITON_SD_BASE_ADDR ((load64 (lba1_block dev) 32 + 1) * 512) = true)
    (hreg : 0 < env.register_blkdev) (htag : env.blk_mq_alloc_tag_set = 0)
    (hqueue : env.blk_mq_init_queue = true) (hdisk : env.blk_mq_alloc_disk = true) :
    piton_sd_init env lba_buf dev
      = some { ret := env.add_disk
               ioremaps := [(PITON_SD_BASE_ADDR, 4096),
                 (PITON_SD_BASE_ADDR, (load64 (lba1_block dev) 32 + 1) * 512)]
               capacity := some (load64 (lba1_block dev) 32 + 1) } := by
  have h1 : (load64 (lba1_block dev) 32 + 1) % 2 ^ 64 = load64 (lba1_block dev) 32 + 1 :=
    Nat.mod_eq_of_lt (by omega)
  have h2 : ((load64 (lba1_block dev) 32 + 1) * 512) % 2 ^ 64
      = (load64 (lba1_block dev) 32 + 1) * 512 := Nat.mod_eq_of_lt (by omega)
  rw [piton_sd_init_outcome env lba_buf dev hprobe, h1, h2,
    if_pos ⟨hfull, hreg, htag, hqueue, hdisk⟩]

theorem capacity_from_backup_lba_witness :
    load64 (lba1_block (gpt_disk GPT_SIGNATURE 0x1FFFFF)) 32 = 0x1FFFFF
      ∧ piton_sd_init ok_env (fun _ => 0) (gpt_disk GPT_SIGNATURE 0x1FFFFF)
        = some { ret := 0
                 ioremaps := [(PITON_SD_BASE_ADDR, 4096), (PITON_SD_BASE_ADDR, 1073741824)]
                 capacity := some 2097152 } :=
  ⟨by decide,
    capacity_from_backup_lba ok_env (fun _ => 0) (gpt_disk GPT_SIGNATURE 0x1FFFFF)
      (by decide) (by decide) (by decide) rfl rfl (by decide) rfl rfl rfl⟩

/-- C3, as stated, fails: an LBA-1 block whose first 8 bytes are zero (not the
"EFI PART" magic) and whose `backup_lba` is 15 is accepted: initialisation
returns 0, sets the capacity to 16 blocks and sizes the full mapping to
`16 * 512` bytes from that field. -/
theorem bad_signature_accepted_counterexample :
    load64 (lba1_block (gpt_disk 0 15)) 0 ≠ GPT_SIGNATURE
      ∧ piton_sd_init ok_env (fun _ => 0) (gpt_disk 0 15)
        = some { ret := 0
                 ioremaps := [(PITON_SD_BASE_ADDR, 4096), (PITON_SD_BASE_ADDR, 8192)]
                 capacity := some 16 } := by
  refine ⟨by decide, by decide⟩

/-- C3, amended. No signature validation: for every LBA-1 block whose first 8
bytes differ from the "EFI PART" magic, initialisation returns and never
reports an invalid signature.  When the probe `ioremap` returns NULL it
returns `-EIO` having asked for the 4096-byte probe mapping only, with no
capacity.  Otherwise it asks for a full mapping whose size comes from the
block's `backup_lba` field, `((backup_lba + 1) mod 2^64) * 512 mod 2^64`
bytes, and then: when the full `ioremap` returns a non-NULL pointer,
`register_blkdev` a positive value, `blk_mq_alloc_tag_set` zero,
`blk_mq_init_queue` a non-NULL pointer and `blk_mq_alloc_disk` a pointer that
is not an error pointer, it returns the result of `add_disk` with capacity
`(backup_lba + 1) mod 2^64`; when one of these five tests fails it returns
`-EIO` with no capacity. -/
theorem signature_not_validated (env : init_env) (lba_buf dev : Mem)
    (_hsig : load64 (lba1_block dev) 0 ≠ GPT_SIGNATURE) :
    ∃ r, piton_sd_init env lba_buf dev = some r
      ∧ ((env.ioremap PITON_SD_BASE_ADDR 4096 = false
            ∧ r.ret = - env.EIO
            ∧ r.ioremaps = [(PITON_SD_BASE_ADDR, 4096)]
            ∧ r.capacity = none)
        ∨ (env.ioremap PITON_SD_BASE_ADDR 4096 = true
            ∧ r.ioremaps = [(PITON_SD_BASE_ADDR, 4096),
                (PITON_SD_BASE_ADDR, ((load64 (lba1_block dev) 32 + 1) % 2 ^ 64 * 512) % 2 ^ 64)]
            ∧ ((env.ioremap PITON_SD_BASE_ADDR
                    (((load64 (lba1_block dev) 32 + 1) % 2 ^ 64 * 512) % 2 ^ 64) = true
                  ∧ 0 < env.register_blkdev ∧ env.blk_mq_alloc_tag_set = 0
                  ∧ env.blk_mq_init_queue = true ∧ env.blk_mq_alloc_disk = true
                  ∧ r.ret = env.add_disk
                  ∧ r.capacity = some ((load64 (lba1_block dev) 32 + 1) % 2 ^ 64))
                ∨ (¬ (env.ioremap PITON_SD_BASE_ADDR
                      (((load64 (lba1_block dev) 32 + 1) % 2 ^ 64 * 512) % 2 ^ 64) = true
                    ∧ 0 < env.register_blkdev ∧ env.blk_mq_alloc_tag_set = 0
                    ∧ env.blk_mq_init_queue = true ∧ env.blk_mq_alloc_disk = true)
                  ∧ r.ret = - env.EIO ∧ r.capacity = none)))) := by
  by_cases hprobe : env.ioremap PITON_SD_BASE_ADDR 4096 = true
  · refine ⟨_, piton_sd_init_outcome env lba_buf dev hprobe, Or.inr ⟨hprobe, ?_, ?_⟩⟩
    · split <;> rfl
    · by_cases hall : env.ioremap PITON_SD_BASE_ADDR
          (((load64 (lba1_block dev) 32 + 1) % 2 ^ 64 * 512) % 2 ^ 64) = true
          ∧ 0 < env.register_blkdev ∧ env.blk_mq_alloc_tag_set = 0
          ∧ env.blk_mq_init_queue = true ∧ env.blk_mq_alloc_disk = true
      · left
        rw [if_pos hall]
        exact ⟨hall.1, hall.2.1, hall.2.2.1, hall.2.2.2.1, hall.2.2.2.2, rfl, rfl⟩
      · right
        rw [if_neg hall]
        exact ⟨hall, rfl, rfl⟩
  · have hfalse : env.ioremap PITON_SD_BASE_ADDR 4096 = false := by
      cases h : env.ioremap PITON_SD_BASE_ADDR 4096
      · rfl
      · exact absurd h hprobe
    refine ⟨{ ret := - env.EIO, ioremaps := [(PITON_SD_BASE_ADDR, 4096)], capacity := none },
      ?_, Or.inl ⟨hfalse, rfl, rfl, rfl⟩⟩
    unfold piton_sd_init
    rw [if_pos hfalse]

theorem signature_not_validated_witness :
    ∃ r, piton_sd_init ok_env (fun _ => 7) (gpt_disk 0x1234 99) = some r
      ∧ ((ok_env.ioremap PITON_SD_BASE_ADDR 4096 = false
            ∧ r.ret = - ok_env.EIO
            ∧ r.ioremaps = [(PITON_SD_BASE_ADDR, 4096)]
            ∧ r.capacity = none)
        ∨ (ok_env.ioremap PITON_SD_BASE_ADDR 4096 = true
            ∧ r.ioremaps = [(PITON_SD_BASE_ADDR, 4096),
                (PITON_SD_BASE_ADDR,
                  ((load64 (lba1_block (gpt_disk 0x1234 99)) 32 + 1) % 2 ^ 64 * 512) % 2 ^ 64)]
            ∧ ((ok_env.ioremap PITON_SD_BASE_ADDR
                    (((load64 (lba1_block (gpt_disk 0x1234 99)) 32 + 1) % 2 ^ 64 * 512)
                      % 2 ^ 64) = true
                  ∧ 0 < ok_env.register_blkdev ∧ ok_env.blk_mq_alloc_tag_set = 0
                  ∧ ok_env.blk_mq_init_queue = true ∧ ok_env.blk_mq_alloc_disk = true
                  ∧ r.ret = ok_env.add_disk
                  ∧ r.capacity
                    = some ((load64 (lba1_block (gpt_disk 0x1234 99)) 32 + 1) % 2 ^ 64))
                ∨ (¬ (ok_env.ioremap PITON_SD_BASE_ADDR
                      (((load64 (lba1_block (gpt_disk 0x1234 99)) 32 + 1) % 2 ^ 64 * 512)
                        % 2 ^ 64) = true
                    ∧ 0 < ok_env.register_blkdev ∧ ok_env.blk_mq_alloc_tag_set = 0
                    ∧ ok_env.blk_mq_init_queue = true ∧ ok_env.blk_mq_alloc_disk = true)
                  ∧ r.ret = - ok_env.EIO ∧ r.capacity = none)))) :=
  signature_not_validated ok_env (fun _ => 7) (gpt_disk 0x1234 99) (by decide)

/-! ### The transfer engine: claims C6 and C10 -/

/-- C6, as stated, fails: a write of length 4 (not a multiple of 8) returns
normally and changes device memory: on a zeroed device, with a buffer of
`0xFF` bytes, device bytes 0 and 7 become `0xFF`. -/
theorem odd_length_write_mutates_counterexample :
    4 % 8 ≠ 0
      ∧ ∃ st, piton_sd_rw PITON_SD_WRITE (fun _ => 255) (fun _ => 0) 0 4 = some st
          ∧ st.dev 0 = 255 ∧ st.dev 7 = 255 ∧ (fun _ => 0 : Mem) 0 = 0 :=
  ⟨by decide, _, rfl, by decide, by decide, rfl⟩

/-- C6, amended. No length validation: for every length `N ≤ 2^64 - 8` that is
not a multiple of 8 the transfer returns normally, in either direction; a read
leaves every byte of device memory unchanged, and a write leaves unchanged
every device byte outside `[lba * 512, lba * 512 + 8 * ⌈N / 8⌉)`, `lba` being
the block address as narrowed to 32 bits. -/
theorem length_not_validated (rw : Nat) (dst dev : Mem) (lba N : Nat)
    (_hN8 : N % 8 ≠ 0) (hN : N + 7 < 2 ^ 64) :
    ∃ st, piton_sd_rw rw dst dev lba N = some st
      ∧ ∀ x, (rw = PITON_SD_READ ∨ x < (lba % 2 ^ 32) * 512
              ∨ (lba % 2 ^ 32) * 512 + 8 * ((N + 7) / 8) ≤ x) →
          st.dev x = dev x := by
  refine ⟨_, piton_sd_rw_eq_units _ _ _ _ _ hN, fun x hx => ?_⟩
  by_cases hrw : rw = PITON_SD_READ
  · subst hrw
    rw [(rw_units_read _ _ _ _).1]
  · rw [(rw_units_write rw hrw _ _ _ _).2 x, if_neg (by omega)]

theorem length_not_validated_witness :
    ∃ st, piton_sd_rw PITON_SD_READ (fun _ => 255) (fun x => x % 256) 5 12 = some st
      ∧ ∀ x, (PITON_SD_READ = PITON_SD_READ ∨ x < (5 % 2 ^ 32) * 512
              ∨ (5 % 2 ^ 32) * 512 + 8 * ((12 + 7) / 8) ≤ x) →
          st.dev x = (fun x => x % 256) x :=
  length_not_validated PITON_SD_READ (fun _ => 255) (fun x => x % 256) 5 12
    (by decide) (by norm_num)

/-- C10. Block-I/O addressing at the failing input: a write bio of one
512-byte segment at sector `2^32` is transferred at device byte offset 0 (its
64 unit accesses start at offset 0 and end at offset 504, and device byte 0
takes the buffer's value), while the device byte at offset `2^32 * 512` keeps
its old value. -/
theorem sector_narrowed_to_32_bits :
    ∃ st, piton_sd_submit_bio { dir := 1, segs := [⟨2 ^ 32, 512, fun _ => 255⟩] }
            (fun _ => 0) = some st
      ∧ st.trace.map (fun a => a.dev_off) = (List.range 64).map (fun j => 8 * j)
      ∧ st.dev 0 = 255
      ∧ st.dev (2 ^ 32 * 512) = 0 :=
  ⟨_, rfl, by decide, by decide, by decide⟩

end PitonSD

/-! ### What the code does where C7, C8 and C10 diverge -/

namespace PitonMMC

theorem for_each_sg_cursor :
    ∀ (l : List scatterlist) (st : mmc_state),
      st.host.buf_size + sg_total l < 2 ^ 64 →
      (for_each_sg l st).log.filterMap mmc_event.copy_at
        = st.log.filterMap mmc_event.copy_at
          ++ cursor_offsets (st.host.blk_addr + st.host.buf_size) l := by
  intro l
  induction l with
  | nil => intro st _; simp [for_each_sg, cursor_offsets]
  | cons sg rest ih =>
    intro st h
    have hsum : sg_total (sg :: rest) = sg.length + sg_total rest := by
      simp [sg_total]
    rw [hsum] at h
    obtain ⟨_, g2, _, _, g5, _⟩ := sg_body_fields sg (sg_is_last rest) st
    have hm : (st.host.buf_size + sg.length) % 2 ^ 64 = st.host.buf_size + sg.length :=
      Nat.mod_eq_of_lt (by omega)
    rw [hm] at g5
    rw [for_each_sg, ih _ (by rw [g5]; omega), g2, g5, sg_body_log, cursor_offsets,
      Nat.add_assoc]
    by_cases hw : sg_is_last rest = true ∧ sg.length ≠ st.host.bytes_remain
    · rw [if_pos hw]
      by_cases hrw : st.host.rw = true <;>
        simp [hrw, List.filterMap_append, mmc_event.copy_at]
    · rw [if_neg hw]
      by_cases hrw : st.host.rw = true <;>
        simp [hrw, List.filterMap_append, mmc_event.copy_at]

/-- The cursor the code keeps: fragment `i` of a request is copied at device
byte offset `cmd->arg` plus the lengths of the fragments before it. -/
theorem request_cursor (W : Nat) (host : piton_mmc_host) (cmd_arg : Nat) (data : mmc_data)
    (hfit : sg_total data.sg < 2 ^ 64) :
    (piton_mmc_request W host cmd_arg (some data)).log.filterMap mmc_event.copy_at
      = cursor_offsets cmd_arg data.sg := by
  have hloop : (piton_mmc_request_loop W host cmd_arg data).log.filterMap mmc_event.copy_at
      = cursor_offsets cmd_arg data.sg := by
    unfold piton_mmc_request_loop
    rw [for_each_sg_cursor _ _ (by simp only []; omega)]
    simp
  rw [request_log, List.filterMap_append, hloop]
  split <;> simp [mmc_event.copy_at]

theorem for_each_sg_warn :
    ∀ (pre : List scatterlist) (last : scatterlist) (st : mmc_state),
      (for_each_sg (pre ++ [last]) st).log.filter mmc_event.is_warn
        = st.log.filter mmc_event.is_warn
          ++ (if last.length ≠ st.host.bytes_remain then
                [mmc_event.warn_on last.length st.host.bytes_remain] else []) := by
  intro pre
  induction pre with
  | nil =>
    intro last st
    rw [List.nil_append, for_each_sg, for_each_sg, sg_body_log]
    by_cases hl : last.length ≠ st.host.bytes_remain
    · rw [if_pos ⟨rfl, hl⟩, if_pos hl]
      by_cases hrw : st.host.rw = true <;>
        simp [hrw, List.filter_append, mmc_event.is_warn]
    · rw [if_neg (fun h => hl h.2), if_neg hl]
      by_cases hrw : st.host.rw = true <;>
        simp [hrw, List.filter_append, mmc_event.is_warn]
  | cons sg rest ih =>
    intro last st
    have hnl : ¬ (sg_is_last (rest ++ [last]) = true ∧ sg.length ≠ st.host.bytes_remain) := by
      intro h
      have := h.1
      simp [sg_is_last] at this
    rw [List.cons_append, for_each_sg, ih, sg_body_log, if_neg hnl,
      (sg_body_fields sg (sg_is_last (rest ++ [last])) st).1]
    by_cases hrw : st.host.rw = true <;>
      simp [hrw, List.filter_append, mmc_event.is_warn]

/-- The last-entry check the code performs: on a list that ends in `last`, the
`WARN_ON` fires exactly when the length of `last` differs from the whole
expected total `data->blocks * data->blksz`, whatever the earlier fragments
have moved. -/
theorem last_check_against_total (W : Nat) (host : piton_mmc_host)
    (cmd_arg blocks blksz flags : Nat) (pre : List scatterlist) (last : scatterlist) :
    (piton_mmc_request W host cmd_arg
        (some { blocks := blocks, blksz := blksz, flags := flags
                sg := pre ++ [last] })).log.filter mmc_event.is_warn
      = if last.length ≠ (blocks * blksz) % 2 ^ 32 then
          [mmc_event.warn_on last.length ((blocks * blksz) % 2 ^ 32)]
        else [] := by
  have hloop : (piton_mmc_request_loop W host cmd_arg
        { blocks := blocks, blksz := blksz, flags := flags, sg := pre ++ [last] }).log.filter
          mmc_event.is_warn
      = if last.length ≠ (blocks * blksz) % 2 ^ 32 then
          [mmc_event.warn_on last.length ((blocks * blksz) % 2 ^ 32)]
        else [] := by
    unfold piton_mmc_request_loop
    rw [for_each_sg_warn]
    simp
  rw [request_log, List.filter_append, hloop]
  split <;> split <;> simp [mmc_event.is_warn]

end PitonMMC

namespace PitonSD

/-- The offset the code uses for a segment: a bio of one segment at sector `s`
is transferred by unit accesses that start at device byte offset
`(s mod 2^32) * 512`. -/
theorem submit_bio_segment_offset (dir s len : Nat) (buf dev : Mem)
    (hlen : len + 7 < 2 ^ 64) :
    ∃ st, piton_sd_submit_bio { dir := dir, segs := [⟨s, len, buf⟩] } dev = some st
      ∧ st.trace = (List.range ((len + 7) / 8)).map
          (fun j => (⟨decide (dir ≠ PITON_SD_READ), (s % 2 ^ 32) * 512 + 8 * j, 8 * j⟩ :
            sd_access)) := by
  have hrun : piton_sd_submit_bio { dir := dir, segs := [⟨s, len, buf⟩] } dev
      = some
          { served := [⟨s, len, (rw_units ((len + 7) / 8) dir ((s % 2 ^ 32) * 512) 0
              { dst := buf, dev := dev, trace := [] }).dst⟩]
            dev := (rw_units ((len + 7) / 8) dir ((s % 2 ^ 32) * 512) 0
              { dst := buf, dev := dev, trace := [] }).dev
            trace := (rw_units ((len + 7) / 8) dir ((s % 2 ^ 32) * 512) 0
              { dst := buf, dev := dev, trace := [] }).trace } := by
    simp only [piton_sd_submit_bio, bio_segments]
    rw [piton_sd_rw_eq_units _ _ _ _ _ hlen]
    simp
  refine ⟨_, hrun, ?_⟩
  simp only [rw_units_trace, List.nil_append]
  simp

end PitonSD
